import Mathlib

/-!
Shallow embedding of `app.py` from the intelligent-sales-agent repository:
an in-memory sales-outreach pipeline (source → enrich → qualify → sequence)
with a lead store, a keyword reply classifier and a reply webhook.

Python strings are `String`, Python `dict` values are association lists,
Python `int` is `Int` (with Python slice semantics made explicit), and the
process-wide mutable store `LEADS` becomes explicit state passing with a
step relation over the two mutating entry points (`run_pipeline` via the
`/run` route, and the `/webhook/reply` route).
-/

/-- ASCII apostrophe character (codepoint 39). -/
def apos : Char := Char.ofNat 39

/-- ASCII apostrophe as a one-character string. -/
def aposS : String := String.singleton apos

/-- Right single quotation mark (codepoint 8217), used in the template copy. -/
def rsq : String := String.singleton (Char.ofNat 8217)

/-- Python `str.lower()` restricted to ASCII, which is all the program uses. -/
def lowerStr (s : String) : String := ⟨s.data.map Char.toLower⟩

/-- `listStartsWith needle hay`: `needle` is an initial segment of `hay`. -/
def listStartsWith : List Char → List Char → Bool
  | [], _ => true
  | _ :: _, [] => false
  | a :: as, b :: bs => a == b && listStartsWith as bs

/-- `containsSub needle hay`: `needle` occurs contiguously in `hay`
(Python `needle in hay` on strings). -/
def containsSub (needle : List Char) : List Char → Bool
  | [] => needle.isEmpty
  | c :: rest => listStartsWith needle (c :: rest) || containsSub needle rest

/-- Python `needle in hay` for strings. -/
def strIn (needle hay : String) : Bool := containsSub needle.data hay.data

/-- Python `s.replace(" ", "")`. -/
def removeSpaces (s : String) : String := ⟨s.data.filter (fun c => c ≠ ' ')⟩

/-- Python slice `xs[:limit]` for an `int` limit (negative limits count from
the end, clamped at zero). -/
def pyTake (limit : Int) (xs : List α) : List α :=
  xs.take (Int.toNat (if limit < 0 then limit + xs.length else limit))

/-- `ICP` dataclass of `app.py`. -/
structure ICP where
  job_title : String
  company : String
  location : String
  size_min : Int
  size_max : Int
  industry : String
  value_prop : String
deriving DecidableEq

/-- A value in the dynamically typed `enrichment` dict: the program stores
strings and lists of strings there. -/
inductive EnrichVal where
  | str (v : String)
  | strs (v : List String)
deriving DecidableEq

/-- One step of the templated email sequence. -/
structure EmailStep where
  step : Nat
  subject : String
  body : String
deriving DecidableEq

/-- One step of the templated LinkedIn sequence. -/
structure LinkedStep where
  step : Nat
  kind : String
  message : String
deriving DecidableEq

/-- A value in the dynamically typed `channel_sequences` dict. -/
inductive ChannelVal where
  | email (steps : List EmailStep)
  | linkedin (steps : List LinkedStep)
deriving DecidableEq

/-- `Lead` dataclass of `app.py`. `qualification_score` is a `float` in the
source but every value the program assigns is a natural number (`0.0`
initially, `min(score, 10)` with integer rule points afterwards). -/
structure Lead where
  id : String
  first_name : String
  last_name : String
  job_title : String
  company_name : String
  location : String
  email : String := ""
  linkedin_url : String := ""
  website : String := ""
  enrichment : List (String × EnrichVal) := []
  qualification_score : Nat := 0
  channel_sequences : List (String × ChannelVal) := []
  status : String := "new"
  sentiment : String := ""
deriving DecidableEq

/-- Association-list lookup, modelling Python `dict` access. -/
def assocGet? (es : List (String × β)) (k : String) : Option β :=
  match es with
  | [] => none
  | (k0, v0) :: rest => if k0 = k then some v0 else assocGet? rest k

/-- Python `value in dictvalue` for the dynamically typed enrichment values:
substring test on a string, membership test on a list. -/
def pyInVal (needle : String) : EnrichVal → Bool
  | .str v => strIn needle v
  | .strs vs => vs.contains needle

/-- The fixed sample-company list of the `find_leads` stub. -/
def sampleCompanies : List String :=
  ["PixelGrowth Agency",
   "NYC Performance Media",
   "Brooklyn Digital Studio",
   "Manhattan Funnels Co.",
   "Queens Creative Labs"]

/-- The loop body of `find_leads`: one `Lead` per sampled company, with the
externally generated fresh id for that lead (Python draws `uuid.uuid4()`;
the embedding takes the generated ids as a parameter). -/
def mkLeads (icp : ICP) : Nat → List String → List String → List Lead
  | _, _, [] => []
  | _, [], _ :: _ => []
  | idx, id :: ids, company :: companies =>
      { id := id
        first_name := "Founder" ++ toString (idx + 1)
        last_name := "Example"
        job_title := icp.job_title
        company_name := company
        location := icp.location } :: mkLeads icp (idx + 1) ids companies

/-- `find_leads` of `app.py`: slices the sample companies to `limit` and
builds one fresh `new` lead per company. -/
def find_leads (icp : ICP) (limit : Int) (ids : List String) : List Lead :=
  mkLeads icp 0 ids (pyTake limit sampleCompanies)

/-- `enrich_lead` of `app.py`: fake contact data plus a fixed enrichment
dict; sets status `enriched`. -/
def enrich_lead (lead : Lead) : Lead :=
  { lead with
      email := lowerStr lead.first_name ++ "." ++ lowerStr lead.last_name ++ "@"
                 ++ lowerStr (removeSpaces lead.company_name) ++ ".com"
      linkedin_url := "https://www.linkedin.com/in/" ++ lowerStr lead.first_name
                 ++ "-" ++ lowerStr lead.last_name
      website := "https://" ++ lowerStr (removeSpaces lead.company_name) ++ ".com"
      enrichment :=
        [("company_size", .str ("10-25")),
         ("tech_stack", .strs ["HubSpot", "Meta Ads", "Google Ads"]),
         ("recent_activity", .str ("Recently hired a paid media specialist."))]
      status := "enriched" }

/-- `qualify_lead` of `app.py`: four additive keyword rules, capped at 10;
sets status `qualified`. -/
def qualify_lead (lead : Lead) (icp : ICP) : Lead :=
  let s1 := if strIn (lowerStr icp.job_title) (lowerStr lead.job_title) then 3 else 0
  let s2 := if strIn (lowerStr icp.company) ("digital marketing agency") then 2 else 0
  let s3 := if strIn (lowerStr icp.location) (lowerStr lead.location) then 2 else 0
  let company_size := (assocGet? lead.enrichment ("company_size")).getD (.str ("1-50"))
  let s4 := if pyInVal ("1-50") company_size || pyInVal ("10-25") company_size then 3 else 0
  { lead with
      qualification_score := min (s1 + s2 + s3 + s4) 10
      status := "qualified" }

/-- `generate_sequences_for_lead` of `app.py`: the static templated email
and LinkedIn sequences; sets status `messaged`. -/
def generate_sequences_for_lead (lead : Lead) (icp : ICP) : Lead :=
  let email_sequence : List EmailStep :=
    [{ step := 1
       subject := lead.company_name ++ " → quick idea for more high-intent leads"
       body := "Hey " ++ lead.first_name ++ ",\n\nWorking with " ++ lowerStr icp.industry
                 ++ " teams in " ++ icp.location
                 ++ ", one pattern keeps showing up: they" ++ rsq
                 ++ "re leaving a lot of warm traffic on the table.\n\n"
                 ++ icp.value_prop
                 ++ "\n\nOpen to a 10-minute teardown for " ++ lead.company_name
                 ++ "?\n\nBest,\nSales Team" },
     { step := 2
       subject := "Re: quick idea for " ++ lead.company_name
       body := "Hey " ++ lead.first_name
                 ++ ",\n\nQuick bump on this—happy to send a Loom walking through "
                 ++ "3 concrete improvements just for your funnel.\n\nWorth a look?"
                 ++ "\n\nBest,\nSales Team" }]
  let linkedin_sequence : List LinkedStep :=
    [{ step := 1
       kind := "connection_request"
       message := "Hey " ++ lead.first_name ++ ", saw you" ++ rsq
                 ++ "re leading growth at " ++ lead.company_name
                 ++ ". Working with similar " ++ lowerStr icp.industry
                 ++ " teams in " ++ icp.location
                 ++ ". Would love to connect and swap notes." },
     { step := 2
       kind := "follow_up"
       message := "Thanks for connecting, " ++ lead.first_name
                 ++ "! Had a quick idea on how " ++ lead.company_name
                 ++ " could turn more ad spend into booked revenue—want a quick loom "
                 ++ "or 10-min chat?" }]
  { lead with
      channel_sequences :=
        [("email", .email email_sequence), ("linkedin", .linkedin linkedin_sequence)]
      status := "messaged" }

/-- The positive keyword list of `detect_reply_and_sentiment`. -/
def positiveWords : List String :=
  ["yes", "sure", "interested", "let" ++ aposS ++ "s talk", "call"]

/-- The negative keyword list of `detect_reply_and_sentiment`. -/
def negativeWords : List String :=
  ["not interested", "stop", "unsubscribe", "no"]

/-- `detect_reply_and_sentiment` of `app.py` (the sentiment field of the
returned dict): positive keywords are checked before negative ones, on the
lowercased text. -/
def detect_reply_and_sentiment (message_text : String) : String :=
  let lowered := lowerStr message_text
  if positiveWords.any (fun w => strIn w lowered) then "positive"
  else if negativeWords.any (fun w => strIn w lowered) then "negative"
  else "neutral"

/-- The process-wide `LEADS` dict: id-keyed, insertion-ordered. -/
abbrev Store := List (String × Lead)

/-- Python `d[k] = v`: update in place if present, else append. -/
def dictSet : Store → String → Lead → Store
  | [], k, v => [(k, v)]
  | (k0, v0) :: rest, k, v =>
      if k0 = k then (k0, v) :: rest else (k0, v0) :: dictSet rest k v

/-- Python `d.get(k)` on the lead store. -/
def dictGet : Store → String → Option Lead
  | [], _ => none
  | (k0, v0) :: rest, k => if k0 = k then some v0 else dictGet rest k

/-- `run_pipeline` of `app.py`: source, enrich, qualify, generate, in order;
returns the processed batch (persistence into `LEADS` is `persistRun`). -/
def run_pipeline (icp : ICP) (limit : Int) (ids : List String) : List Lead :=
  let leads := find_leads icp limit ids
  let enriched := leads.map enrich_lead
  let qualified := enriched.map (fun lead => qualify_lead lead icp)
  let messaged := qualified.map (fun lead => generate_sequences_for_lead lead icp)
  messaged

/-- The persistence loop at the end of `run_pipeline`:
`for lead in messaged: LEADS[lead.id] = lead`. -/
def persistRun (s : Store) (leads : List Lead) : Store :=
  leads.foldl (fun st lead => dictSet st lead.id lead) s

/-- Outcome of the `/webhook/reply` route. -/
inductive WebhookResult where
  | notFound
  | ok (sentiment : String)
deriving DecidableEq

/-- HTTP status code of a webhook outcome (`404` vs `200`). -/
def httpStatus : WebhookResult → Nat
  | .notFound => 404
  | .ok _ => 200

/-- `webhook_reply` route of `app.py`: a missing or falsy (empty) `lead_id`,
or an id not in the store, yields the 404 response and leaves the store
unchanged; otherwise the lead gets the classified sentiment and status
`replied`. -/
def webhook_reply (s : Store) (lead_id : Option String) (message_text : String) :
    WebhookResult × Store :=
  match lead_id with
  | none => (.notFound, s)
  | some lid =>
      if lid = "" then (.notFound, s)
      else
        match dictGet s lid with
        | none => (.notFound, s)
        | some lead =>
            let sentiment := detect_reply_and_sentiment message_text
            (.ok sentiment,
             dictSet s lid { lead with sentiment := sentiment, status := "replied" })

/-- Stable insertion (descending by score) underlying the `GET /` listing. -/
def insertScoreDesc (x : Lead) : List Lead → List Lead
  | [] => [x]
  | y :: ys =>
      if x.qualification_score < y.qualification_score then y :: insertScoreDesc x ys
      else x :: y :: ys

/-- Stable descending sort by `qualification_score`, modelling Python
`sorted(..., key=lambda l: l.qualification_score, reverse=True)` (Python's
sort is stable, and `reverse=True` preserves stability for equal keys). -/
def sortScoreDesc : List Lead → List Lead
  | [] => []
  | x :: xs => insertScoreDesc x (sortScoreDesc xs)

/-- The lead listing produced by the `index` route: store values in
insertion order, sorted by score descending. -/
def index_leads_sorted (s : Store) : List Lead :=
  sortScoreDesc (s.map Prod.snd)

/-- One observable state transition of the system: a `/run` request (with
the batch of fresh ids `uuid.uuid4()` produced for it — pairwise distinct,
non-empty, and absent from the store) or a `/webhook/reply` request. -/
inductive Step : Store → Store → Prop where
  | run (s : Store) (icp : ICP) (limit : Int) (ids : List String)
      (hlen : ids.length = (pyTake limit sampleCompanies).length)
      (hnodup : ids.Nodup)
      (hne : ∀ id ∈ ids, id ≠ "")
      (hfresh : ∀ id ∈ ids, dictGet s id = none) :
      Step s (persistRun s (run_pipeline icp limit ids))
  | reply (s : Store) (lead_id : Option String) (message_text : String) :
      Step s (webhook_reply s lead_id message_text).2

/-- Stores reachable from the empty initial `LEADS` by webhook and run
requests. -/
inductive Reachable : Store → Prop where
  | init : Reachable []
  | step {s s2 : Store} : Reachable s → Step s s2 → Reachable s2

/-- Successor along the status chain `new → enriched → qualified →
messaged → replied`. -/
def statusNext : String → Option String
  | "new" => some ("enriched")
  | "enriched" => some ("qualified")
  | "qualified" => some ("messaged")
  | "messaged" => some ("replied")
  | _ => none

/-- A status change that stays put or advances exactly one link of the
chain: no skip, no regression. -/
def forwardOk (a b : String) : Prop := b = a ∨ statusNext a = some b

/-- Concrete ICP matching the defaults of the `/run` route. -/
def icpW : ICP :=
  { job_title := "CEO"
    company := "Digital Marketing Agency"
    location := "New York"
    size_min := 1
    size_max := 50
    industry := "Marketing"
    value_prop := "We build AI-powered outbound machines that create a consistent flow of qualified demos." }

/-- C1. The spec's scenario expects sentiment `negative` for
`"not interested, stop"`, but the code returns `positive`: the lowercased
text contains the positive keyword `interested` as a substring, and the
positive check runs first, so the negative keyword `not interested` — which
the code itself lists — can never fire on any input. -/
theorem detect_not_interested_stop_is_positive :
    detect_reply_and_sentiment ("not interested, stop") = "positive" := by
  decide

/-- C3. For every lead and every ICP, `qualify_lead` sets
`qualification_score` to a value in the closed interval `[0, 10]`. -/
theorem qualify_lead_score_in_range (lead : Lead) (icp : ICP) :
    0 ≤ (qualify_lead lead icp).qualification_score ∧
      (qualify_lead lead icp).qualification_score ≤ 10 := by
  refine ⟨Nat.zero_le _, ?_⟩
  simp only [qualify_lead]
  exact min_le_right _ _

/-- C5. Any text containing (case-insensitively) a positive keyword and a
negative keyword classifies positive, because the positive check runs
first; in particular `"yes but not interested"` classifies positive. -/
theorem positive_precedence :
    (∀ t : String,
        (positiveWords.any fun w => strIn w (lowerStr t)) = true →
        (negativeWords.any fun w => strIn w (lowerStr t)) = true →
        detect_reply_and_sentiment t = "positive") ∧
      detect_reply_and_sentiment ("yes but not interested") = "positive" := by
  constructor
  · intro t hp _
    simp only [detect_reply_and_sentiment]
    rw [if_pos hp]
  · decide

/-- Witness for C5 at a text containing both keyword kinds. -/
theorem positive_precedence_witness :
    detect_reply_and_sentiment ("sure, stop") = "positive" :=
  positive_precedence.1 ("sure, stop") (by decide) (by decide)

/-- C6. A webhook reply for a `lead_id` absent from the store returns the
404 not-found response and leaves the store (hence every lead in it)
unchanged. -/
theorem webhook_unknown_lead_not_found (s : Store) (lid : String) (text : String)
    (h : dictGet s lid = none) :
    webhook_reply s (some lid) text = (WebhookResult.notFound, s) ∧
      httpStatus (webhook_reply s (some lid) text).1 = 404 := by
  have hw : webhook_reply s (some lid) text = (WebhookResult.notFound, s) := by
    simp only [webhook_reply]
    by_cases he : lid = ""
    · rw [if_pos he]
    · rw [if_neg he, h]
  exact ⟨hw, by rw [hw]; rfl⟩

/-- Witness for C6: an id absent from a concrete one-lead store. -/
theorem webhook_unknown_lead_not_found_witness :
    webhook_reply (persistRun [] (run_pipeline icpW 1 ["a"])) (some ("missing")) ("hi")
        = (WebhookResult.notFound, persistRun [] (run_pipeline icpW 1 ["a"])) ∧
      httpStatus (webhook_reply (persistRun [] (run_pipeline icpW 1 ["a"]))
          (some ("missing")) ("hi")).1 = 404 :=
  webhook_unknown_lead_not_found (persistRun [] (run_pipeline icpW 1 ["a"]))
    ("missing") ("hi") (by decide)

/-- Length of the `find_leads` loop output: one lead per sampled company,
as long as fresh ids last. -/
theorem mkLeads_length (icp : ICP) (idx : Nat) (ids comps : List String) :
    (mkLeads icp idx ids comps).length = min ids.length comps.length := by
  induction comps generalizing idx ids with
  | nil => simp [mkLeads]
  | cons c cs ih =>
      cases ids with
      | nil => simp [mkLeads]
      | cons i is => simp [mkLeads, ih, Nat.succ_min_succ]

/-- Length of a Python slice `xs[:limit]`. -/
theorem length_pyTake (limit : Int) (xs : List α) :
    (pyTake limit xs).length
      = min (Int.toNat (if limit < 0 then limit + xs.length else limit)) xs.length := by
  simp [pyTake]

/-- The pipeline maps are length-preserving over the sourced batch. -/
theorem run_pipeline_length (icp : ICP) (limit : Int) (ids : List String) :
    (run_pipeline icp limit ids).length
      = min ids.length (pyTake limit sampleCompanies).length := by
  simp [run_pipeline, find_leads, mkLeads_length]

/-- C10. The sourcing stub draws from a fixed list of 5 sample companies, so
every run yields at most 5 leads, and any limit above 5 (with ids to spare)
yields exactly 5. -/
theorem run_pipeline_capped_at_five (icp : ICP) (limit : Int) (ids : List String) :
    (run_pipeline icp limit ids).length ≤ 5 ∧
      (5 < limit → 5 ≤ ids.length → (run_pipeline icp limit ids).length = 5) := by
  have hlen := run_pipeline_length icp limit ids
  have h5 : sampleCompanies.length = 5 := rfl
  rw [length_pyTake, h5] at hlen
  constructor
  · rw [hlen]
    by_cases hc : limit < 0
    · rw [if_pos hc]; omega
    · rw [if_neg hc]; omega
  · intro hlim hids
    have hc : ¬ limit < 0 := by omega
    rw [hlen, if_neg hc]
    omega

/-- Witness for C10 at limit 7: still exactly 5 leads. -/
theorem run_pipeline_capped_at_five_witness :
    (run_pipeline icpW 7 ["a", "b", "c", "d", "e"]).length = 5 :=
  (run_pipeline_capped_at_five icpW 7 ["a", "b", "c", "d", "e"]).2 (by decide) (by decide)

/-- C2 counterexample. At the (Python-)legal limit `-1` the slice
`sample_companies[:-1]` keeps 4 companies, so the run returns 4 leads,
which is not at most `-1`: the claim fails for negative limits. -/
theorem run_pipeline_negative_limit_counterexample :
    ¬ (((run_pipeline icpW (-1) ["a", "b", "c", "d", "e"]).length : Int) ≤ -1) := by
  decide

/-- C2 (amended to non-negative limits). For every ICP and every limit
`≥ 0`, the run returns at most `limit` leads, each with status `messaged`
and a non-empty `channel_sequences` mapping. -/
theorem run_pipeline_bounded_messaged (icp : ICP) (limit : Int) (ids : List String)
    (hlim : 0 ≤ limit) :
    ((run_pipeline icp limit ids).length : Int) ≤ limit ∧
      ∀ lead ∈ run_pipeline icp limit ids,
        lead.status = "messaged" ∧ lead.channel_sequences ≠ [] := by
  constructor
  · have hlen := run_pipeline_length icp limit ids
    rw [length_pyTake] at hlen
    have hc : ¬ limit < 0 := by omega
    rw [if_neg hc] at hlen
    rw [hlen]
    omega
  · intro lead hm
    simp only [run_pipeline, List.mem_map] at hm
    obtain ⟨l2, ⟨l1, ⟨l0, _, rfl⟩, rfl⟩, rfl⟩ := hm
    exact ⟨rfl, by simp [generate_sequences_for_lead]⟩

/-- Witness for C2's amended theorem at limit 3. -/
theorem run_pipeline_bounded_messaged_witness :
    ((run_pipeline icpW 3 ["a", "b", "c"]).length : Int) ≤ 3 :=
  (run_pipeline_bounded_messaged icpW 3 ["a", "b", "c"] (by decide)).1

/-- Membership through the stable descending insertion. -/
theorem mem_insertScoreDesc {x z : Lead} {l : List Lead} :
    z ∈ insertScoreDesc x l ↔ z = x ∨ z ∈ l := by
  induction l with
  | nil => simp [insertScoreDesc]
  | cons y ys ih =>
      simp only [insertScoreDesc]
      by_cases hc : x.qualification_score < y.qualification_score
      · rw [if_pos hc]
        simp only [List.mem_cons, ih]
        tauto
      · rw [if_neg hc]
        simp only [List.mem_cons]

/-- Inserting into a descending-sorted list keeps it descending-sorted. -/
theorem pairwise_insertScoreDesc {x : Lead} {l : List Lead}
    (h : l.Pairwise (fun a b => b.qualification_score ≤ a.qualification_score)) :
    (insertScoreDesc x l).Pairwise
      (fun a b => b.qualification_score ≤ a.qualification_score) := by
  induction l with
  | nil => simp [insertScoreDesc]
  | cons y ys ih =>
      rw [List.pairwise_cons] at h
      obtain ⟨hy, hys⟩ := h
      simp only [insertScoreDesc]
      by_cases hc : x.qualification_score < y.qualification_score
      · rw [if_pos hc, List.pairwise_cons]
        refine ⟨?_, ih hys⟩
        intro z hz
        rcases mem_insertScoreDesc.mp hz with rfl | hz
        · exact le_of_lt hc
        · exact hy z hz
      · rw [if_neg hc, List.pairwise_cons]
        push_neg at hc
        refine ⟨?_, List.pairwise_cons.mpr ⟨hy, hys⟩⟩
        intro z hz
        rcases List.mem_cons.mp hz with rfl | hz
        · exact hc
        · exact le_trans (hy z hz) hc

/-- Stability, inserted element's own score class: the inserted element
lands in front of every equal-scored element already present. -/
theorem filter_insertScoreDesc_eq {x : Lead} {l : List Lead} {q : Nat}
    (hx : x.qualification_score = q) :
    (insertScoreDesc x l).filter (fun z => z.qualification_score == q)
      = x :: l.filter (fun z => z.qualification_score == q) := by
  induction l with
  | nil => simp [insertScoreDesc, List.filter_cons, hx]
  | cons y ys ih =>
      simp only [insertScoreDesc]
      by_cases hc : x.qualification_score < y.qualification_score
      · rw [if_pos hc]
        have hy : (y.qualification_score == q) = false := by
          simp only [beq_eq_false_iff_ne, ne_eq]
          omega
        simp [List.filter_cons, hy, ih]
      · rw [if_neg hc]
        simp [List.filter_cons, hx]

/-- Stability, other score classes: insertion does not disturb them. -/
theorem filter_insertScoreDesc_ne {x : Lead} {l : List Lead} {q : Nat}
    (hx : ¬ x.qualification_score = q) :
    (insertScoreDesc x l).filter (fun z => z.qualification_score == q)
      = l.filter (fun z => z.qualification_score == q) := by
  induction l with
  | nil => simp [insertScoreDesc, List.filter_cons, hx]
  | cons y ys ih =>
      simp only [insertScoreDesc]
      by_cases hc : x.qualification_score < y.qualification_score
      · rw [if_pos hc]
        simp [List.filter_cons, ih]
      · rw [if_neg hc]
        simp [List.filter_cons, hx]

/-- C8. The `GET /` listing is sorted by `qualification_score` descending,
and within each score class the listing preserves the store's insertion
order (stability of Python's `sorted` with `reverse=True`). -/
theorem index_listing_sorted_stable (s : Store) :
    (index_leads_sorted s).Pairwise
        (fun a b => b.qualification_score ≤ a.qualification_score) ∧
      ∀ q : Nat,
        (index_leads_sorted s).filter (fun lead => lead.qualification_score == q)
          = (s.map Prod.snd).filter (fun lead => lead.qualification_score == q) := by
  have hsort : ∀ l : List Lead,
      (sortScoreDesc l).Pairwise
        (fun a b => b.qualification_score ≤ a.qualification_score) := by
    intro l
    induction l with
    | nil => simp [sortScoreDesc]
    | cons x xs ih => exact pairwise_insertScoreDesc ih
  have hfil : ∀ (q : Nat) (l : List Lead),
      (sortScoreDesc l).filter (fun lead => lead.qualification_score == q)
        = l.filter (fun lead => lead.qualification_score == q) := by
    intro q l
    induction l with
    | nil => rfl
    | cons x xs ih =>
        simp only [sortScoreDesc]
        by_cases hx : x.qualification_score = q
        · rw [filter_insertScoreDesc_eq hx, ih]
          simp [List.filter_cons, hx]
        · rw [filter_insertScoreDesc_ne hx, ih]
          simp [List.filter_cons, hx]
  exact ⟨hsort _, fun q => hfil q _⟩

/-- A successful lookup comes from an entry of the store. -/
theorem dictGet_mem {s : Store} {k : String} {v : Lead}
    (h : dictGet s k = some v) : (k, v) ∈ s := by
  induction s with
  | nil => simp [dictGet] at h
  | cons p rest ih =>
      obtain ⟨k0, v0⟩ := p
      simp only [dictGet] at h
      by_cases hk : k0 = k
      · rw [if_pos hk] at h
        cases h
        subst hk
        exact List.mem_cons_self _ _
      · rw [if_neg hk] at h
        exact List.mem_cons_of_mem _ (ih h)

/-- Looking up the key just written returns the written lead. -/
theorem dictGet_dictSet_self (s : Store) (k : String) (v : Lead) :
    dictGet (dictSet s k v) k = some v := by
  induction s with
  | nil => simp [dictSet, dictGet]
  | cons p rest ih =>
      obtain ⟨k0, v0⟩ := p
      simp only [dictSet]
      by_cases hk : k0 = k
      · rw [if_pos hk]
        simp [dictGet, hk]
      · rw [if_neg hk]
        simp [dictGet, hk, ih]

/-- Writing one key leaves every other key's lookup unchanged. -/
theorem dictGet_dictSet_ne (s : Store) {k k' : String} (v : Lead) (h : ¬ k = k') :
    dictGet (dictSet s k v) k' = dictGet s k' := by
  induction s with
  | nil => simp [dictSet, dictGet, h]
  | cons p rest ih =>
      obtain ⟨k0, v0⟩ := p
      simp only [dictSet]
      by_cases hk : k0 = k
      · rw [if_pos hk]
        subst hk
        simp [dictGet, h]
      · rw [if_neg hk]
        simp only [dictGet, ih]

/-- Persisting a batch whose ids all differ from `k` leaves `k` unchanged. -/
theorem dictGet_persistRun_ne {leads : List Lead} {k : String} (s : Store)
    (h : ∀ lead ∈ leads, ¬ lead.id = k) :
    dictGet (persistRun s leads) k = dictGet s k := by
  induction leads generalizing s with
  | nil => rfl
  | cons lead rest ih =>
      simp only [persistRun, List.foldl_cons]
      have h1 := ih (dictSet s lead.id lead) (fun l hl => h l (List.mem_cons_of_mem _ hl))
      simp only [persistRun] at h1
      rw [h1, dictGet_dictSet_ne _ _ (h lead (List.mem_cons_self _ _))]

/-- The invariant each stored entry satisfies in every reachable state:
the entry's key is the lead's id, ids are non-empty (they come from
`uuid.uuid4()`), only fully processed leads are persisted, and processed
leads carry their generated sequences. -/
def LeadProps (k : String) (lead : Lead) : Prop :=
  lead.id = k ∧ ¬ k = "" ∧
    (lead.status = "messaged" ∨ lead.status = "replied") ∧
    lead.channel_sequences ≠ []

/-- All entries of a store satisfy `LeadProps`. -/
def StoreInv (s : Store) : Prop := ∀ p ∈ s, LeadProps p.1 p.2

/-- `dictSet` preserves the store invariant when the written entry
satisfies it. -/
theorem storeInv_dictSet {s : Store} {k : String} {lead : Lead}
    (hs : StoreInv s) (hp : LeadProps k lead) : StoreInv (dictSet s k lead) := by
  induction s with
  | nil =>
      intro p hpmem
      rcases List.mem_singleton.mp hpmem with rfl
      exact hp
  | cons e rest ih =>
      obtain ⟨k0, v0⟩ := e
      simp only [dictSet]
      by_cases hk : k0 = k
      · rw [if_pos hk]
        intro p hpmem
        rcases List.mem_cons.mp hpmem with rfl | hpmem
        · rw [hk]; exact hp
        · exact hs _ (List.mem_cons_of_mem _ hpmem)
      · rw [if_neg hk]
        intro p hpmem
        rcases List.mem_cons.mp hpmem with rfl | hpmem
        · exact hs _ (List.mem_cons_self _ _)
        · exact ih (fun e he => hs e (List.mem_cons_of_mem _ he)) _ hpmem

/-- `persistRun` preserves the store invariant when every persisted lead
satisfies it at its own id. -/
theorem storeInv_persistRun {s : Store} {leads : List Lead}
    (hs : StoreInv s) (h : ∀ lead ∈ leads, LeadProps lead.id lead) :
    StoreInv (persistRun s leads) := by
  induction leads generalizing s with
  | nil => exact hs
  | cons lead rest ih =>
      simp only [persistRun, List.foldl_cons]
      exact ih (storeInv_dictSet hs (h lead (List.mem_cons_self _ _)))
        (fun l hl => h l (List.mem_cons_of_mem _ hl))

/-- Every lead sourced by `find_leads` draws its id from the generated
batch, starts in status `new`, and has no sequences yet. -/
theorem mkLeads_mem {icp : ICP} {idx : Nat} {ids comps : List String} {lead : Lead}
    (h : lead ∈ mkLeads icp idx ids comps) :
    lead.id ∈ ids ∧ lead.status = "new" ∧ lead.channel_sequences = [] := by
  induction comps generalizing idx ids with
  | nil => simp [mkLeads] at h
  | cons c cs ih =>
      cases ids with
      | nil => simp [mkLeads] at h
      | cons i is =>
          rcases List.mem_cons.mp h with rfl | h
          · exact ⟨List.mem_cons_self _ _, rfl, rfl⟩
          · obtain ⟨h1, h2, h3⟩ := ih h
            exact ⟨List.mem_cons_of_mem _ h1, h2, h3⟩

/-- Every lead a run returns keeps an id from the generated batch, ends in
status `messaged`, and carries its generated non-empty sequences. -/
theorem run_pipeline_mem {icp : ICP} {limit : Int} {ids : List String} {lead : Lead}
    (h : lead ∈ run_pipeline icp limit ids) :
    lead.id ∈ ids ∧ lead.status = "messaged" ∧ lead.channel_sequences ≠ [] := by
  simp only [run_pipeline, List.mem_map] at h
  obtain ⟨l2, ⟨l1, ⟨l0, hl0, rfl⟩, rfl⟩, rfl⟩ := h
  refine ⟨?_, rfl, by simp [generate_sequences_for_lead]⟩
  have : (generate_sequences_for_lead (qualify_lead (enrich_lead l0) icp) icp).id
      = l0.id := rfl
  rw [this]
  exact (mkLeads_mem hl0).1

/-- The store invariant holds in every reachable state. -/
theorem reachable_storeInv {s : Store} (h : Reachable s) : StoreInv s := by
  induction h with
  | init => intro p hp; simp at hp
  | @step s1 s2 hR hS ih =>
      cases hS with
      | run icp limit ids hlen hnodup hne hfresh =>
          refine storeInv_persistRun ih ?_
          intro lead hl
          obtain ⟨hid, hst, hsq⟩ := run_pipeline_mem hl
          exact ⟨rfl, hne _ hid, Or.inl hst, hsq⟩
      | reply lead_id message_text =>
          match lead_id with
          | none => exact ih
          | some lid =>
              simp only [webhook_reply]
              by_cases he : lid = ""
              · rw [if_pos he]; exact ih
              · rw [if_neg he]
                cases hget : dictGet s1 lid with
                | none => exact ih
                | some lead0 =>
                    have hprops := ih _ (dictGet_mem hget)
                    refine storeInv_dictSet ih ?_
                    exact ⟨hprops.1, he, Or.inr rfl, hprops.2.2.2⟩

/-- C7. For a lead id present in a reachable store, the reply webhook
classifies the text, stores the sentiment, sets the lead's status to
`replied`, and answers ok with the sentiment; the scenario text
`"sure, let's talk"` classifies positive. -/
theorem webhook_known_lead_replied (s : Store) (h : Reachable s) (lid : String)
    (lead : Lead) (hl : dictGet s lid = some lead) (text : String) :
    (webhook_reply s (some lid) text).1
        = WebhookResult.ok (detect_reply_and_sentiment text) ∧
      dictGet (webhook_reply s (some lid) text).2 lid
        = some { lead with sentiment := detect_reply_and_sentiment text,
                           status := "replied" } ∧
      detect_reply_and_sentiment ("sure, let" ++ aposS ++ "s talk") = "positive" := by
  have hne : ¬ lid = "" := (reachable_storeInv h _ (dictGet_mem hl)).2.1
  have hw : webhook_reply s (some lid) text
      = (WebhookResult.ok (detect_reply_and_sentiment text),
         dictSet s lid { lead with sentiment := detect_reply_and_sentiment text,
                                   status := "replied" }) := by
    simp only [webhook_reply]
    rw [if_neg hne, hl]
  refine ⟨by rw [hw], ?_, by decide⟩
  rw [hw]
  exact dictGet_dictSet_self _ _ _

/-- Placeholder lead used only to totalize a lookup below. -/
def dummyLead : Lead :=
  { id := ""
    first_name := ""
    last_name := ""
    job_title := ""
    company_name := ""
    location := "" }

/-- A concrete store: one pipeline run with limit 1 and fresh id `"a"`. -/
def storeW : Store := persistRun [] (run_pipeline icpW 1 ["a"])

/-- The single lead persisted in `storeW`. -/
def leadW : Lead :=
  match dictGet storeW ("a") with
  | some lead => lead
  | none => dummyLead

/-- `storeW` is reachable: one `/run` request from the empty store. -/
theorem reachW : Reachable storeW :=
  Reachable.step Reachable.init
    (Step.run [] icpW 1 ["a"] (by decide) (by decide) (by decide) (by decide))

/-- Witness for C7 on the concrete reachable one-lead store. -/
theorem webhook_known_lead_replied_witness :
    (webhook_reply storeW (some ("a")) ("sure")).1 = WebhookResult.ok ("positive") := by
  have h := webhook_known_lead_replied storeW reachW ("a") leadW rfl ("sure")
  have hd : detect_reply_and_sentiment ("sure") = "positive" := by decide
  rw [hd] at h
  exact h.1

/-- C4. In every reachable store, a lead carries non-empty
`channel_sequences` iff its status is `messaged` or `replied`; any single
request changes a stored lead's status by zero or one forward link of
`new → enriched → qualified → messaged → replied`; and inside a run each
stage advances a sourced lead exactly one link. -/
theorem lead_status_forward_invariant (s : Store) (h : Reachable s) :
    (∀ p ∈ s, p.2.channel_sequences ≠ [] ↔
        (p.2.status = "messaged" ∨ p.2.status = "replied")) ∧
      (∀ s2, Step s s2 → ∀ id lead lead2,
        dictGet s id = some lead → dictGet s2 id = some lead2 →
        forwardOk lead.status lead2.status) ∧
      (∀ (icp : ICP) (limit : Int) (ids : List String),
        ∀ lead ∈ find_leads icp limit ids,
          lead.status = "new" ∧
          forwardOk lead.status (enrich_lead lead).status ∧
          forwardOk (enrich_lead lead).status
            (qualify_lead (enrich_lead lead) icp).status ∧
          forwardOk (qualify_lead (enrich_lead lead) icp).status
            (generate_sequences_for_lead (qualify_lead (enrich_lead lead) icp)
              icp).status) := by
  have hinv := reachable_storeInv h
  refine ⟨?_, ?_, ?_⟩
  · intro p hp
    obtain ⟨_, _, hst, hsq⟩ := hinv p hp
    exact ⟨fun _ => hst, fun _ => hsq⟩
  · intro s2 hstep id lead lead2 hget hget2
    cases hstep with
    | run icp limit ids hlen hnodup hne hfresh =>
        have hid : ∀ l ∈ run_pipeline icp limit ids, ¬ l.id = id := by
          intro l hl heq
          have hn := hfresh _ (heq ▸ (run_pipeline_mem hl).1)
          rw [hn] at hget
          cases hget
        rw [dictGet_persistRun_ne s hid, hget] at hget2
        cases hget2
        exact Or.inl rfl
    | reply lead_id message_text =>
        match lead_id with
        | none =>
            simp only [webhook_reply] at hget2
            rw [hget] at hget2
            cases hget2
            exact Or.inl rfl
        | some lid =>
            simp only [webhook_reply] at hget2
            by_cases he : lid = ""
            · rw [if_pos he] at hget2
              rw [hget] at hget2
              cases hget2
              exact Or.inl rfl
            · rw [if_neg he] at hget2
              cases hq : dictGet s lid with
              | none =>
                  rw [hq] at hget2
                  rw [hget] at hget2
                  cases hget2
                  exact Or.inl rfl
              | some lead0 =>
                  rw [hq] at hget2
                  by_cases hid : lid = id
                  · subst hid
                    rw [hq] at hget
                    cases hget
                    rw [dictGet_dictSet_self] at hget2
                    cases hget2
                    rcases (hinv _ (dictGet_mem hq)).2.2.1 with hst | hst
                    · exact Or.inr (by rw [hst]; rfl)
                    · exact Or.inl (by rw [hst])
                  · rw [dictGet_dictSet_ne _ _ hid, hget] at hget2
                    cases hget2
                    exact Or.inl rfl
  · intro icp limit ids lead hl
    have hnew := (mkLeads_mem hl).2.1
    refine ⟨hnew, ?_, Or.inr rfl, Or.inr rfl⟩
    rw [hnew]
    exact Or.inr rfl

/-- Witness for C4's invariant on the concrete reachable one-lead store. -/
theorem lead_status_forward_invariant_witness :
    leadW.channel_sequences ≠ [] ↔
      (leadW.status = "messaged" ∨ leadW.status = "replied") := by
  have h := (lead_status_forward_invariant storeW reachW).1
  have hmem : (("a" : String), leadW) ∈ storeW := by
    rw [show storeW = [(("a" : String), leadW)] from rfl]
    exact List.mem_singleton.mpr rfl
  exact h (("a", leadW)) hmem
